import Mathlib

/-!
# Verification of the brokaw NNTP client core

A shallow embedding, in Lean 4, of the wire grammar, connection engine,
response model and typed decoders of the `brokaw` NNTP client
(`src/raw/parse.rs`, `src/raw/connection.rs`, `src/raw/response.rs`,
`src/raw/compression.rs`, `src/types/response/...`).

Byte strings are modelled as `List Nat` (one `Nat` per byte).  Fallible
Rust functions become `Option`-valued Lean functions.  Loops that the Rust
code drives by I/O availability are written with an explicit fuel
parameter; in every case the fuel chosen by the wrapper definition is
provably sufficient (each loop iteration consumes at least one input
byte), so the fueled function agrees with the unbounded loop.
-/

namespace Brokaw

/-- ASCII bytes of a Lean string literal.  All concrete inputs used below
are pure ASCII, for which the code point of each character is its byte. -/
def bytes (s : String) : List Nat := s.data.map Char.toNat

/-! ## Wire grammar (`src/raw/parse.rs`) -/

/-- `take_until "\r\n"` followed by `crlf` (cf. `take_line`): split the
input at the *first* CRLF pair, returning the bytes before it and the
bytes after it.  `none` when no CRLF pair occurs. -/
def splitAtCRLF : List Nat → Option (List Nat × List Nat)
  | [] => none
  | b :: rest =>
    if b = 13 ∧ rest.head? = some 10 then some ([], rest.tail)
    else (splitAtCRLF rest).map (fun p => (b :: p.1, p.2))

/-- `take_line` from `src/raw/parse.rs`: a line is a byte sequence
terminated by CRLF; returns (rest, line) as `(line, rest)` here. -/
def take_line (b : List Nat) : Option (List Nat × List Nat) :=
  splitAtCRLF b

/-- `parse_data_block_line` from `src/raw/parse.rs`:
`all_consuming(take_line)` — the whole slice must be exactly one
terminated line; returns the line content without its CRLF. -/
def parse_data_block_line (b : List Nat) : Option (List Nat) :=
  match take_line b with
  | some (line, []) => some line
  | _ => none

/-- `is_end_of_datablock` from `src/raw/parse.rs`: the line content is
exactly the single byte `"."`. -/
def is_end_of_datablock (b : List Nat) : Bool :=
  b == [46]

/-- ASCII digit. -/
def isDigitB (c : Nat) : Bool := 48 ≤ c && c ≤ 57

/-- `one_of "12345"`. -/
def isLeadDigit (c : Nat) : Bool := 49 ≤ c && c ≤ 53

/-- `take_response_code` from `src/raw/parse.rs`: three ASCII digits, the
first in 1..5; returns the three code bytes and the rest. -/
def take_response_code (b : List Nat) : Option (List Nat × List Nat) :=
  match b with
  | c1 :: c2 :: c3 :: r =>
    if isLeadDigit c1 && isDigitB c2 && isDigitB c3 then
      some ([c1, c2, c3], r)
    else none
  | _ => none

/-- `parse_first_line` from `src/raw/parse.rs`:
`all_consuming(tuple((take_response_code, char ' ', take_until "\r\n", crlf)))`.
Returns `(rest, code, data)`; succeeds only when `rest` is empty. -/
def parse_first_line (b : List Nat) : Option (List Nat × List Nat × List Nat) :=
  match take_response_code b with
  | none => none
  | some (code, r1) =>
    match r1 with
    | c :: r2 =>
      if c = 32 then
        match splitAtCRLF r2 with
        | none => none
        | some (data, rest) =>
          if rest = [] then some (rest, code, data) else none
      else none
    | [] => none

/-! ## Reading data blocks (`src/raw/connection.rs`, `read_data_blocks`) -/

/-- `BufRead::read_until(b'\n')` on a pure byte stream: the consumed chunk
(up to and including the first `\n`, or the whole stream at EOF-without-LF)
and the remaining stream. -/
def read_until_nl : List Nat → List Nat × List Nat
  | [] => ([], [])
  | b :: rest =>
    if b = 10 then ([b], rest)
    else
      let p := read_until_nl rest
      (b :: p.1, p.2)

/-- Result of the `read_data_blocks` loop.  `outOfFuel` is the marker for
fuel exhaustion; the wrapper's fuel is proved sufficient, so it never
occurs there. -/
inductive RdbOut where
  | outOfFuel : RdbOut
  | parseError : RdbOut
  | ok (payload : List Nat) (line_boundaries : List (Nat × Nat)) (rest : List Nat) : RdbOut
  deriving Repr, DecidableEq

/-- The loop body of `read_data_blocks` (`src/raw/connection.rs` 435‑477):
read one chunk with `read_until`, parse `buffer[read_head..]` as one
terminated line, record `(read_head, read_head + bytes_read)`, advance the
read head, and stop when the line is the data-block terminator. -/
def rdb_loop : Nat → List Nat → List Nat → List (Nat × Nat) → Nat → RdbOut
  | 0, _, _, _, _ => .outOfFuel
  | fuel + 1, stream, buffer, bds, read_head =>
    let p := read_until_nl stream
    let buffer' := buffer ++ p.1
    match parse_data_block_line (buffer'.drop read_head) with
    | none => .parseError
    | some line =>
      let bds' := bds ++ [(read_head, read_head + p.1.length)]
      if is_end_of_datablock line then .ok buffer' bds' p.2
      else rdb_loop fuel p.2 buffer' bds' (read_head + p.1.length)

/-- `read_data_blocks`: run the loop on the given stream, buffer and
boundary list with the read head at 0, exactly as the connection engine
calls it.  The fuel `stream.length + 1` is provably sufficient (each
iteration either stops or consumes at least one stream byte). -/
def read_data_blocks (stream buffer : List Nat) (bds : List (Nat × Nat)) : RdbOut :=
  rdb_loop (stream.length + 1) stream buffer bds 0

/-! ## Response codes

The repository's `src/types/response_code.rs` is not present under `src/`;
only its callers are (`Kind::Article` in `binary.rs`, `Kind::Capabilities`
in `capabilities.rs`, `Kind::Head`, `Kind::Body`, `Kind::ArticleExists`,
`Kind::PostingAllowed`, `ResponseCode::Known/is_multiline` in
`connection.rs`).  The definitions in this section are therefore modelled
from the spec (§3 "ResponseCode", §4.2 "Response-Code Table"). -/

/-- Modelled from the spec: the closed set of known semantic kinds named
by the sources present under `src/` (`src/types/response_code.rs` itself is
missing). -/
inductive Kind where
  | capabilities
  | postingAllowed
  | groupSelected
  | article
  | head
  | body
  | articleExists
  deriving Repr, DecidableEq

/-- Modelled from the spec: a 3-digit numeric code classified into a known
kind or kept as an unknown numeric code (§3 "ResponseCode"). -/
inductive ResponseCode where
  | known : Kind → ResponseCode
  | unknown : Nat → ResponseCode
  deriving Repr, DecidableEq

/-- Modelled from the spec: the total classification function from a
numeric code to a kind, with an explicit "unknown" fallback that never
fails (§4.2).  The numeric assignments are the RFC 3977 codes the spec
names (220 article follows, 211 group selected, 101 capabilities, ...). -/
def ResponseCode.fromNat (n : Nat) : ResponseCode :=
  if n = 101 then .known .capabilities
  else if n = 200 then .known .postingAllowed
  else if n = 211 then .known .groupSelected
  else if n = 220 then .known .article
  else if n = 221 then .known .head
  else if n = 222 then .known .body
  else if n = 223 then .known .articleExists
  else .unknown n

/-- Modelled from the spec: whether responses of a kind are inherently
multi-line (carry a trailing data-block section) per the protocol (§4.2). -/
def Kind.is_multiline : Kind → Bool
  | .capabilities => true
  | .article => true
  | .head => true
  | .body => true
  | _ => false

/-- Modelled from the spec: the multi-line predicate on response codes;
unknown codes are not inherently multi-line. -/
def ResponseCode.is_multiline : ResponseCode → Bool
  | .known k => k.is_multiline
  | .unknown _ => false

/-! ## Response model (`src/raw/response.rs`) -/

/-- The multi-line data-block section of a response: an owned payload
buffer plus the recorded (start, end) line-boundary offset pairs. -/
structure DataBlocks where
  payload : List Nat
  line_boundaries : List (Nat × Nat)
  deriving Repr, DecidableEq

/-- A raw framed response: numeric code, owned status-line bytes, and the
optional data-block section. -/
structure RawResponse where
  code : ResponseCode
  first_line : List Nat
  data_blocks : Option DataBlocks
  deriving Repr, DecidableEq

/-- The byte slice `payload[start..end)`. -/
def sliceOf (payload : List Nat) (p : Nat × Nat) : List Nat :=
  (payload.drop p.1).take (p.2 - p.1)

/-- `DataBlocks::lines` (`src/raw/response.rs` 143‑153) as the list it
yields: each recorded boundary pair mapped to its payload slice. -/
def DataBlocks.linesList (db : DataBlocks) : List (List Nat) :=
  db.line_boundaries.map (sliceOf db.payload)

/-- The list yielded by `Unterminated::next` (`src/raw/response.rs`
161‑173): stop at the first line equal to `".\r\n"`, otherwise yield the
line with its last two bytes removed. -/
def unterminatedOf : List (List Nat) → List (List Nat)
  | [] => []
  | l :: rest =>
    if l == [46, 13, 10] then []
    else l.take (l.length - 2) :: unterminatedOf rest

/-- `DataBlocks::unterminated` as the list it yields. -/
def DataBlocks.unterminatedList (db : DataBlocks) : List (List Nat) :=
  unterminatedOf db.linesList

/-! ## Compression shim (`src/raw/compression.rs`) -/

/-- The compression modes: only the Giganews-style `XFeature` scheme. -/
inductive Compression where
  | xfeature
  deriving Repr, DecidableEq

/-- The literal marker suffix `"[COMPRESS=GZIP]\r\n"` as bytes. -/
def compressMarker : List Nat := bytes "[COMPRESS=GZIP]\r\n"

/-- `Compression::use_decoder` (`src/raw/compression.rs` 21‑25): the
status line ends with the literal bytes `"[COMPRESS=GZIP]\r\n"`. -/
def Compression.use_decoder : Compression → List Nat → Bool
  | .xfeature, first_line => compressMarker.isSuffixOf first_line

/-! ## Connection engine (`src/raw/connection.rs`, `read_response`) -/

/-- The numeric value of the three parsed code digit bytes
(`u16::from_str` on the code in `read_initial_response`). -/
def codeVal : List Nat → Nat
  | [c1, c2, c3] => (c1 - 48) * 100 + (c2 - 48) * 10 + (c3 - 48)
  | _ => 0

/-- The multi-line decision of `read_response` (`src/raw/connection.rs`
253‑281): the `match (is_multiline, resp_code.is_multiline())` with the
arms in source order — `(Some(true), _) | (_, true)` reads data blocks,
then `(Some(false), _)` does not, then the default does not. -/
def wantsDataBlocks : Option Bool → Bool → Bool
  | some true, _ => true
  | _, true => true
  | some false, _ => false
  | _, _ => false

/-- The connection state visible to `read_response`: the unread stream and
the two reusable buffers. -/
structure ConnState where
  stream : List Nat
  first_line_buf : List Nat
  data_blocks_buf : List Nat
  deriving Repr, DecidableEq

/-- `NntpConnection::read_response` (`src/raw/connection.rs` 248‑292) over
a pure input stream.

* both reusable buffers are truncated to length 0 (`Vec::truncate(0)` is
  `List.take 0`);
* one terminated chunk is read into the first-line buffer and parsed with
  `parse_first_line` (`read_initial_response`);
* the decision `wantsDataBlocks` selects whether a data-block section is
  read; if so the readable stream is first routed through the compression
  decoder exactly when a mode is configured and `use_decoder` fires on the
  status-line bytes (the zlib inflation itself lives in the external
  `flate2` crate and is abstracted as the function argument `inflate`);
* the response owns copies of both buffers, and `reset_buffers`
  (`src/raw/connection.rs` 297‑307) truncates each reusable buffer back to
  its configured baseline size before returning. -/
def read_response (compression : Option Compression) (inflate : List Nat → List Nat)
    (cfgF cfgD : Nat) (is_multiline : Option Bool) (st : ConnState) :
    Option (RawResponse × ConnState) :=
  let fb0 := st.first_line_buf.take 0
  let db0 := st.data_blocks_buf.take 0
  let p := read_until_nl st.stream
  let fb1 := fb0 ++ p.1
  match parse_first_line fb1 with
  | none => none
  | some (_rest, code, _data) =>
    let resp_code := ResponseCode.fromNat (codeVal code)
    if wantsDataBlocks is_multiline resp_code.is_multiline then
      let dstream :=
        match compression with
        | some c => if c.use_decoder fb1 then inflate p.2 else p.2
        | none => p.2
      match read_data_blocks dstream db0 [] with
      | .ok payload bds rest =>
        some ({ code := resp_code, first_line := fb1,
                data_blocks := some ⟨payload, bds⟩ },
              { stream := rest, first_line_buf := fb1.take cfgF,
                data_blocks_buf := payload.take cfgD })
      | _ => none
    else
      some ({ code := resp_code, first_line := fb1, data_blocks := none },
            { stream := p.2, first_line_buf := fb1.take cfgF,
              data_blocks_buf := db0.take cfgD })

/-- A sequence of `read_response` calls on one connection, one per
requested multi-line override, returning the responses in order. -/
def read_many (compression : Option Compression) (inflate : List Nat → List Nat)
    (cfgF cfgD : Nat) : List (Option Bool) → ConnState →
    Option (List RawResponse × ConnState)
  | [], st => some ([], st)
  | ov :: ovs, st =>
    match read_response compression inflate cfgF cfgD ov st with
    | none => none
    | some (r, st') =>
      match read_many compression inflate cfgF cfgD ovs st' with
      | none => none
      | some (rs, st'') => some (r :: rs, st'')

/-! ## Header folding grammar (`src/types/response/article/parse.rs`) -/

/-- `is_a_notcolon`: any ASCII non-control character other than a colon
(`0x21..0x39` or `0x3b..0x7e`). -/
def is_a_notcolon (c : Nat) : Bool :=
  (33 ≤ c && c ≤ 57) || (59 ≤ c && c ≤ 126)

/-- `is_a_char`: any ASCII character from `!` through `~`
(`0x21..0x7e`). -/
def is_a_char (c : Nat) : Bool :=
  33 ≤ c && c ≤ 126

/-- A UTF-8 continuation byte. -/
def isCont (c : Nat) : Bool := 128 ≤ c && c ≤ 191

/-- `std::str::from_utf8` validity of a byte slice (the check behind
`is_utf8_non_ascii`). -/
def utf8Valid : List Nat → Bool
  | [] => true
  | b :: rest =>
    if b < 128 then utf8Valid rest
    else if 194 ≤ b && b ≤ 223 then
      match rest with
      | b2 :: rest2 => isCont b2 && utf8Valid rest2
      | _ => false
    else if b = 224 then
      match rest with
      | b2 :: b3 :: rest2 => (160 ≤ b2 && b2 ≤ 191) && isCont b3 && utf8Valid rest2
      | _ => false
    else if (225 ≤ b && b ≤ 236) || b = 238 || b = 239 then
      match rest with
      | b2 :: b3 :: rest2 => isCont b2 && isCont b3 && utf8Valid rest2
      | _ => false
    else if b = 237 then
      match rest with
      | b2 :: b3 :: rest2 => (128 ≤ b2 && b2 ≤ 159) && isCont b3 && utf8Valid rest2
      | _ => false
    else if b = 240 then
      match rest with
      | b2 :: b3 :: b4 :: rest2 =>
        (144 ≤ b2 && b2 ≤ 191) && isCont b3 && isCont b4 && utf8Valid rest2
      | _ => false
    else if 241 ≤ b && b ≤ 243 then
      match rest with
      | b2 :: b3 :: b4 :: rest2 => isCont b2 && isCont b3 && isCont b4 && utf8Valid rest2
      | _ => false
    else if b = 244 then
      match rest with
      | b2 :: b3 :: b4 :: rest2 =>
        (128 ≤ b2 && b2 ≤ 143) && isCont b3 && isCont b4 && utf8Valid rest2
      | _ => false
    else false

/-- `is_utf8_non_ascii`: the slice is valid UTF-8 and contains no ASCII
byte. -/
def is_utf8_non_ascii (b : List Nat) : Bool :=
  utf8Valid b && b.all (fun c => 128 ≤ c)

/-- nom's `take(n)`: exactly `n` bytes or failure. -/
def takeN (n : Nat) (b : List Nat) : Option (List Nat × List Nat) :=
  if n ≤ b.length then some (b.take n, b.drop n) else none

/-- `take_ascii_byte`: a single byte, required to be ASCII. -/
def take_ascii_byte (b : List Nat) : Option (List Nat × List Nat) :=
  match takeN 1 b with
  | some (t, r) => if t.all (fun c => c ≤ 127) then some (t, r) else none
  | none => none

/-- `is_a_char_bytes`: the slice is a *single* `A-CHAR` byte. -/
def is_a_char_bytes (b : List Nat) : Bool :=
  match b with
  | [c] => is_a_char c
  | _ => false

/-- `take_a_char`: `verify(take_ascii_byte, is_a_char_bytes)`. -/
def take_a_char (b : List Nat) : Option (List Nat × List Nat) :=
  match take_ascii_byte b with
  | some (t, r) => if is_a_char_bytes t then some (t, r) else none
  | none => none

/-- `take_utf8_non_ascii`: `alt` over `verify(take(n), is_utf8_non_ascii)`
for `n = 1, 2, 3, 4`. -/
def take_utf8_non_ascii (b : List Nat) : Option (List Nat × List Nat) :=
  match takeN 1 b with
  | some (t, r) =>
    if is_utf8_non_ascii t then some (t, r) else
    match takeN 2 b with
    | some (t, r) =>
      if is_utf8_non_ascii t then some (t, r) else
      match takeN 3 b with
      | some (t, r) =>
        if is_utf8_non_ascii t then some (t, r) else
        match takeN 4 b with
        | some (t, r) => if is_utf8_non_ascii t then some (t, r) else none
        | none => none
      | none => none
    | none => none
  | none => none

/-- `take_p_char`: an `A-CHAR` or a UTF-8 non-ASCII code point. -/
def take_p_char (b : List Nat) : Option (List Nat × List Nat) :=
  match take_a_char b with
  | some q => some q
  | none => take_utf8_non_ascii b

/-- The `fold_many1 take_p_char` loop inside `take_token`, with an
explicit fuel (each successful `take_p_char` consumes at least one byte,
so `b.length` is always enough): total length taken and the rest. -/
def takeTokenLoop : Nat → List Nat → Nat × List Nat
  | 0, b => (0, b)
  | fuel + 1, b =>
    match take_p_char b with
    | none => (0, b)
    | some (t, r) =>
      let q := takeTokenLoop fuel r
      (t.length + q.1, q.2)

/-- `take_token`: one or more `P-CHAR`s; returns the token slice and the
rest; fails when no `P-CHAR` can be taken. -/
def take_token (b : List Nat) : Option (List Nat × List Nat) :=
  let q := takeTokenLoop b.length b
  if q.1 = 0 then none else some (b.take q.1, q.2)

/-- The maximal-munch span of a byte predicate (`take_while`). -/
def span (p : Nat → Bool) : List Nat → List Nat × List Nat
  | [] => ([], [])
  | c :: rest =>
    if p c then
      let q := span p rest
      (c :: q.1, q.2)
    else ([], c :: rest)

/-- nom `space0`/`space1` character class: space or horizontal tab. -/
def isSpaceTab (c : Nat) : Bool := c == 32 || c == 9

/-- nom `space1`: one or more spaces/tabs. -/
def space1P (b : List Nat) : Option (List Nat × List Nat) :=
  let q := span isSpaceTab b
  if q.1 = [] then none else some q

/-- nom `crlf`: consume a leading CRLF pair. -/
def crlfP : List Nat → Option (List Nat)
  | [] => none
  | b :: rest =>
    if b = 13 ∧ rest.head? = some 10 then some rest.tail else none

/-- One iteration of `many0(tuple((opt(crlf), space1, take_token)))` in
`take_header_content`: optionally consume a CRLF, then required
whitespace, then a token; `none` when the tuple fails (the iteration
backtracks). -/
def contStep (b : List Nat) : Option (List Nat) :=
  let b1 := match crlfP b with
    | some r => r
    | none => b
  match space1P b1 with
  | none => none
  | some (_ws, b2) =>
    match take_token b2 with
    | none => none
    | some (_t, r) => some r

/-- The `many0` loop over `contStep`, fueled (each iteration consumes at
least two bytes, so the input length always suffices). -/
def foldCont : Nat → List Nat → List Nat
  | 0, b => b
  | fuel + 1, b =>
    match contStep b with
    | none => b
    | some r => foldCont fuel r

/-- `take_header_content` (`src/types/response/article/parse.rs` 119‑128):
`tuple((opt(space0), take_token, many0(tuple((opt(crlf), space1, take_token)))))`,
returning the *raw consumed byte span* `b[..bytes_read]` — including any
interior CRLF-plus-whitespace folding markers — and the rest. -/
def take_header_content (b : List Nat) : Option (List Nat × List Nat) :=
  let b1 := (span isSpaceTab b).2
  match take_token b1 with
  | none => none
  | some (_t, b2) =>
    let r := foldCont b.length b2
    some (b.take (b.length - r.length), r)

/-- `take_header` (`src/types/response/article/parse.rs` 136‑143):
`terminated(tuple((take_header_name, char ':', char ' ', take_header_content)), crlf)`;
returns `((name, content), rest)`. -/
def take_header (b : List Nat) : Option ((List Nat × List Nat) × List Nat) :=
  let q := span is_a_notcolon b
  if q.1 = [] then none
  else
    match q.2 with
    | 58 :: 32 :: r1 =>
      match take_header_content r1 with
      | none => none
      | some (content, r2) =>
        match crlfP r2 with
        | none => none
        | some r3 => some ((q.1, content), r3)
    | _ => none

/-- The `HashMap::entry(name).or_default().push(content)` step of
`take_headers`: append the content to the name's value vector, adding the
key when absent.  The hash map is modelled as an association list. -/
def headersInsert : List (List Nat × List (List Nat)) → List Nat → List Nat →
    List (List Nat × List (List Nat))
  | [], name, content => [(name, [content])]
  | (k, vs) :: rest, name, content =>
    if k == name then (k, vs ++ [content]) :: rest
    else (k, vs) :: headersInsert rest name content

/-- The `fold_many1 take_header` loop, fueled (each header consumes at
least six bytes): the headers in parse order and the rest. -/
def takeHeadersLoop : Nat → List Nat → List ((List Nat × List Nat)) →
    List ((List Nat × List Nat)) × List Nat
  | 0, b, acc => (acc, b)
  | fuel + 1, b, acc =>
    match take_header b with
    | none => (acc, b)
    | some (h, r) => takeHeadersLoop fuel r (acc ++ [h])

/-- `take_headers` (`src/types/response/article/parse.rs` 145‑160):
`terminated(fold_many1(take_header, ...), crlf)`; yields the name → values
multimap and the rest of the input (the article body).  String conversion
in the source is `String::from_utf8_lossy`, which is the identity on the
ASCII byte strings handled here; names and contents stay byte lists. -/
def take_headers (b : List Nat) :
    Option (List (List Nat × List (List Nat)) × List Nat) :=
  let q := takeHeadersLoop b.length b []
  if q.1 = [] then none
  else
    match crlfP q.2 with
    | none => none
    | some r =>
      some (q.1.foldl (fun m h => headersInsert m h.1 h.2) [], r)

/-- Total number of header entries in the multimap (repeated names count
once per value). -/
def headersLen (m : List (List Nat × List (List Nat))) : Nat :=
  (m.map (fun q => q.2.length)).sum

/-! ## Typed decoders -/

/-- `char::is_whitespace` restricted to ASCII, the class split on by
`str::split_whitespace` for the ASCII inputs handled here. -/
def isWsB (c : Nat) : Bool :=
  c == 32 || c == 9 || c == 10 || c == 11 || c == 12 || c == 13

/-- The `split_whitespace` loop, fueled (each emitted token or skipped
separator consumes at least one byte). -/
def splitWsLoop : Nat → List Nat → List (List Nat)
  | 0, _ => []
  | _, [] => []
  | fuel + 1, c :: rest =>
    if isWsB c then splitWsLoop fuel rest
    else
      let q := span (fun x => !(isWsB x)) rest
      (c :: q.1) :: splitWsLoop fuel q.2

/-- `str::split_whitespace` over bytes: maximal non-whitespace runs.
`String::from_utf8_lossy` is the identity on the ASCII inputs handled
here, so the split is taken directly on the raw bytes. -/
def splitWs (b : List Nat) : List (List Nat) := splitWsLoop b.length b

/-- `u32::from_str` on a decimal token: all digits, value within `u32`. -/
def parseU32 (b : List Nat) : Option Nat :=
  if b ≠ [] && b.all isDigitB then
    let v := b.foldl (fun acc c => acc * 10 + (c - 48)) 0
    if v < 4294967296 then some v else none
  else none

/-- The `(number, message_id)` block at the top of
`BinaryArticle::try_from` (`src/types/response/article/binary.rs`
133‑143): split the (lossily converted) status line on whitespace, skip
the response code, parse the article number as `u32` and take the message
id token. -/
def article_first_line_fields (resp : RawResponse) : Option (Nat × List Nat) :=
  match splitWs resp.first_line with
  | _ :: numTok :: midTok :: _ =>
    match parseU32 numTok with
    | some n => some (n, midTok)
    | none => none
  | _ => none

/-- A binary Netnews article (`src/types/response/article/binary.rs`):
headers multimap, raw body bytes, and body line boundaries. -/
structure BinaryArticle where
  headers : List (List Nat × List (List Nat))
  body : List Nat
  line_boundaries : List (Nat × Nat)
  deriving Repr, DecidableEq

/-- `impl TryFrom<&RawResponse> for BinaryArticle`
(`src/types/response/article/binary.rs` 113‑174): require the article
kind, parse `(number, message_id)` from the status line, require a
data-block section, run `take_headers` over its payload, split the
payload into headers and body at the header-section end offset, and
re-base the line boundaries onto the body-only slice with
`skip_while(start < bytes_read)`. -/
def binaryArticleTryFrom (resp : RawResponse) : Option BinaryArticle :=
  if resp.code ≠ ResponseCode.known .article then none
  else
    match article_first_line_fields resp with
    | none => none
    | some _ =>
      match resp.data_blocks with
      | none => none
      | some db =>
        match take_headers db.payload with
        | none => none
        | some (headers, body) =>
          let bytes_read := db.payload.length - body.length
          let lbs := (db.line_boundaries.dropWhile (fun q => q.1 < bytes_read)).map
            (fun q => (q.1 - bytes_read, q.2 - bytes_read))
          some ⟨headers, body, lbs⟩

/-- `BinaryArticle::lines` (`src/types/response/article/binary.rs`
185‑193) as the list it yields. -/
def BinaryArticle.linesList (a : BinaryArticle) : List (List Nat) :=
  a.line_boundaries.map (sliceOf a.body)

/-- `BinaryArticle::unterminated` (`src/types/response/article/binary.rs`
202‑210) as the list it yields: every boundary pair mapped to
`&body[start..end - 2]` — note there is no skip of the terminator line. -/
def BinaryArticle.unterminatedList (a : BinaryArticle) : List (List Nat) :=
  a.line_boundaries.map (fun q => sliceOf a.body (q.1, q.2 - 2))

/-- A server capability (`src/types/response/capabilities.rs`): label and
optional argument set. -/
structure Capability where
  name : List Nat
  args : Option (List (List Nat))
  deriving Repr, DecidableEq

/-- `HashSet::insert` modelled on a duplicate-free list. -/
def hsInsert (l : List (List Nat)) (v : List Nat) : List (List Nat) :=
  if l.contains v then l else l ++ [v]

/-- `HashMap::insert` modelled on an association list: overwrite the
value when the key is present, append otherwise. -/
def hmInsert : List (List Nat × Capability) → List Nat → Capability →
    List (List Nat × Capability)
  | [], k, v => [(k, v)]
  | (k', v') :: rest, k, v =>
    if k' == k then (k', v) :: rest else (k', v') :: hmInsert rest k v

/-- The per-line step of `Capabilities::try_from`: whitespace-split the
(terminator-stripped, lossily converted) line into a label and an
optional argument set; fail when the line has no label. -/
def capabilityOfLine (line : List Nat) : Option (List Nat × Capability) :=
  match splitWs line with
  | [] => none
  | label :: args =>
    let a := if args ≠ [] then some (args.foldl hsInsert []) else none
    some (label, ⟨label, a⟩)

/-- `impl TryFrom<&RawResponse> for Capabilities`
(`src/types/response/capabilities.rs` 64‑105): require the capabilities
kind (`err_if_not_kind`), require a data-block section, then fold the
unterminated lines into a label-keyed map where duplicate labels
overwrite. -/
def capabilitiesTryFrom (resp : RawResponse) :
    Option (List (List Nat × Capability)) :=
  if resp.code ≠ ResponseCode.known .capabilities then none
  else
    match resp.data_blocks with
    | none => none
    | some db =>
      db.unterminatedList.foldlM
        (fun m line => (capabilityOfLine line).map (fun q => hmInsert m q.1 q.2)) []

/-! ## Statement-support definitions -/

/-- The byte string contains a CRLF pair. -/
def hasCRLF : List Nat → Bool
  | [] => false
  | b :: rest => (b == 13 && rest.head? == some 10) || hasCRLF rest

/-- The boundary pairs are contiguous starting at `h`: each pair starts
where the previous one ended and is non-empty. -/
def contiguousFrom : Nat → List (Nat × Nat) → Bool
  | _, [] => true
  | h, q :: rest => q.1 == h && h < q.2 && contiguousFrom q.2 rest

/-- Where the boundary list ends, starting from `h`. -/
def endOf : Nat → List (Nat × Nat) → Nat
  | h, [] => h
  | _, q :: rest => endOf q.2 rest

/-! ## Basic lemmas -/

theorem read_until_nl_split (s : List Nat) :
    (read_until_nl s).1 ++ (read_until_nl s).2 = s := by
  induction s with
  | nil => rfl
  | cons b rest ih =>
    simp only [read_until_nl]
    split
    · rfl
    · simpa using ih

theorem read_until_nl_ne {s : List Nat} (h : s ≠ []) :
    (read_until_nl s).1 ≠ [] := by
  cases s with
  | nil => exact absurd rfl h
  | cons b rest =>
    simp only [read_until_nl]
    split <;> simp

theorem read_until_nl_append {line : List Nat} (s : List Nat)
    (h : 10 ∉ line) : read_until_nl (line ++ 10 :: s) = (line ++ [10], s) := by
  induction line with
  | nil => simp [read_until_nl]
  | cons b rest ih =>
    have hb : b ≠ 10 := fun hb => h (hb ▸ List.mem_cons_self b rest)
    have hrest : 10 ∉ rest := fun hm => h (List.mem_cons_of_mem b hm)
    simp [read_until_nl, hb, ih hrest]

theorem splitAtCRLF_eq_some {b x y : List Nat} (h : splitAtCRLF b = some (x, y)) :
    b = x ++ 13 :: 10 :: y := by
  induction b generalizing x with
  | nil => simp [splitAtCRLF] at h
  | cons c rest ih =>
    simp only [splitAtCRLF] at h
    split at h
    · next hg =>
      obtain ⟨hc, hh⟩ := hg
      cases rest with
      | nil => simp at hh
      | cons r rs =>
        simp only [List.head?_cons, Option.some.injEq] at hh
        simp only [List.tail_cons] at h
        obtain ⟨hx, hy⟩ := Prod.mk.injEq .. ▸ (Option.some.injEq .. ▸ h)
        subst hc hh hx hy
        rfl
    · next hg =>
      cases hs : splitAtCRLF rest with
      | none => simp [hs] at h
      | some p =>
        simp only [hs, Option.map_some'] at h
        obtain ⟨hx, hy⟩ := Prod.mk.injEq .. ▸ (Option.some.injEq .. ▸ h)
        subst hy
        rcases p with ⟨px, py⟩
        have := ih (x := px) (by simpa using hs)
        subst hx
        simp [this]

theorem splitAtCRLF_of_not_hasCRLF {b : List Nat} (h : hasCRLF b = false) :
    splitAtCRLF b = none := by
  induction b with
  | nil => rfl
  | cons c rest ih =>
    simp only [hasCRLF, Bool.or_eq_false_iff, Bool.and_eq_false_iff] at h
    obtain ⟨h1, h2⟩ := h
    simp only [splitAtCRLF]
    rw [if_neg, ih h2, Option.map_none']
    rintro ⟨hc, hh⟩
    rcases h1 with h1 | h1
    · simp [hc] at h1
    · simp [hh] at h1

theorem splitAtCRLF_append {p : List Nat} (s : List Nat)
    (h : hasCRLF p = false) : splitAtCRLF (p ++ 13 :: 10 :: s) = some (p, s) := by
  induction p with
  | nil => simp [splitAtCRLF]
  | cons c rest ih =>
    simp only [hasCRLF, Bool.or_eq_false_iff, Bool.and_eq_false_iff] at h
    obtain ⟨h1, h2⟩ := h
    simp only [List.cons_append, splitAtCRLF]
    rw [if_neg]
    · simp [ih h2]
    · rintro ⟨hc, hh⟩
      cases rest with
      | nil => simp at hh
      | cons r rs =>
        rcases h1 with h1 | h1
        · simp [hc] at h1
        · simp_all

theorem parse_data_block_line_eq_some {b l : List Nat}
    (h : parse_data_block_line b = some l) : b = l ++ [13, 10] := by
  simp only [parse_data_block_line, take_line] at h
  cases hs : splitAtCRLF b with
  | none => rw [hs] at h; exact absurd h (by simp)
  | some p =>
    rcases p with ⟨x, y⟩
    rw [hs] at h
    cases y with
    | nil =>
      simp only [Option.some.injEq] at h
      subst h
      simpa using splitAtCRLF_eq_some hs
    | cons a b' => simp at h

/-! ## Claim theorems -/

/-- C1: the multi-line decision of `read_response`.  The claim states that
an explicit override of `false` suppresses the data-block read regardless
of the Response-Code Table's classification.  In the source the match arm
`(Some(true), _) | (_, true)` precedes `(Some(false), _)`, so an explicit
`false` is ignored whenever the classification already says multi-line:
the decision evaluates to `true`, and a full `read_response` call with
override `Some(false)` on a 220-coded (article-kind, multi-line) response
still reads and attaches a data-block section. -/
theorem claim1_read_response_ignores_explicit_false :
    wantsDataBlocks (some false) true = true ∧
    (read_response none id 128 16384 (some false)
        ⟨bytes "220 ok\r\nx\r\n.\r\n", [], []⟩).map
      (fun p => p.1.data_blocks.isSome) = some true := by
  exact ⟨rfl, by decide⟩

theorem read_response_buffers_irrelevant
    (compression : Option Compression) (inflate : List Nat → List Nat)
    (cfgF cfgD : Nat) (ov : Option Bool) (s f1 b1 f2 b2 : List Nat) :
    read_response compression inflate cfgF cfgD ov ⟨s, f1, b1⟩
      = read_response compression inflate cfgF cfgD ov ⟨s, f2, b2⟩ := by
  simp [read_response]

/-- C6: buffer-reuse idempotence.  Any sequence of `read_response` calls
on one connection produces responses (and successor states) that do not
depend on the contents left in the two reusable buffers by earlier calls:
two connections with the same unread stream but arbitrarily different
leftover buffer contents produce identical results.  This holds because
`read_response` truncates both buffers to length zero before reading
(`src/raw/connection.rs` 249‑250) and the returned response owns clones of
the freshly filled buffers. -/
theorem claim6_buffer_reuse_independence
    (compression : Option Compression) (inflate : List Nat → List Nat)
    (cfgF cfgD : Nat) (ovs : List (Option Bool)) (s f1 b1 f2 b2 : List Nat) :
    (read_many compression inflate cfgF cfgD ovs ⟨s, f1, b1⟩).map (fun p => p.1)
      = (read_many compression inflate cfgF cfgD ovs ⟨s, f2, b2⟩).map (fun p => p.1) := by
  cases ovs with
  | nil => rfl
  | cons ov ovs =>
    simp only [read_many]
    rw [read_response_buffers_irrelevant compression inflate cfgF cfgD ov s f1 b1 f2 b2]

theorem hasCRLF_tail {c : Nat} {l : List Nat} (h : hasCRLF (c :: l) = false) :
    hasCRLF l = false := by
  simp only [hasCRLF, Bool.or_eq_false_iff] at h
  exact h.2

theorem pfl_valid (c1 c2 c3 : Nat) (text : List Nat)
    (h1 : isLeadDigit c1 = true) (h2 : isDigitB c2 = true)
    (h3 : isDigitB c3 = true) (ht : hasCRLF text = false) :
    parse_first_line (c1 :: c2 :: c3 :: 32 :: (text ++ 13 :: 10 :: []))
      = some ([], [c1, c2, c3], text) := by
  simp [parse_first_line, take_response_code, h1, h2, h3, splitAtCRLF_append _ ht]

theorem pfl_no_crlf : ∀ b : List Nat, hasCRLF b = false → parse_first_line b = none := by
  intro b h
  match b with
  | [] => rfl
  | [a] => rfl
  | [a, b2] => rfl
  | [a, b2, c] =>
    by_cases hg : (isLeadDigit a && isDigitB b2 && isDigitB c) = true <;>
      simp [parse_first_line, take_response_code, hg]
  | a :: b2 :: c :: d :: r =>
    have h4 : hasCRLF r = false :=
      hasCRLF_tail (hasCRLF_tail (hasCRLF_tail (hasCRLF_tail h)))
    by_cases hg : (isLeadDigit a && isDigitB b2 && isDigitB c) = true
    · by_cases hd : d = 32
      · subst hd
        simp [parse_first_line, take_response_code, hg,
          splitAtCRLF_of_not_hasCRLF h4]
      · simp [parse_first_line, take_response_code, hg, hd]
    · simp [parse_first_line, take_response_code, hg]

theorem pfl_bad_lead : ∀ (c : Nat) (rest : List Nat), isLeadDigit c = false →
    parse_first_line (c :: rest) = none := by
  intro c rest h
  match rest with
  | [] => rfl
  | [a] => rfl
  | a :: b :: r =>
    simp [parse_first_line, take_response_code, h]

theorem pfl_bad_digits : ∀ (c1 c2 c3 : Nat) (rest : List Nat),
    isDigitB c2 = false ∨ isDigitB c3 = false →
    parse_first_line (c1 :: c2 :: c3 :: rest) = none := by
  intro c1 c2 c3 rest h
  have hg : (isLeadDigit c1 && isDigitB c2 && isDigitB c3) = false := by
    rcases h with h | h <;> simp [h]
  simp [parse_first_line, take_response_code, hg]

theorem pfl_trailing : ∀ (p s : List Nat), hasCRLF p = false → s ≠ [] →
    parse_first_line (p ++ 13 :: 10 :: s) = none := by
  intro p s hp hs
  match p with
  | [] =>
    match s with
    | [] => exact absurd rfl hs
    | s0 :: s' => simp [parse_first_line, take_response_code, isLeadDigit]
  | [a] =>
    have h13 : isDigitB 13 = false := by decide
    simp [parse_first_line, take_response_code, h13]
  | [a, b2] =>
    have h13 : isDigitB 13 = false := by decide
    simp [parse_first_line, take_response_code, h13]
  | [a, b2, c] =>
    by_cases hg : (isLeadDigit a && isDigitB b2 && isDigitB c) = true <;>
      simp [parse_first_line, take_response_code, hg]
  | a :: b2 :: c :: d :: p' =>
    have h4 : hasCRLF p' = false :=
      hasCRLF_tail (hasCRLF_tail (hasCRLF_tail (hasCRLF_tail hp)))
    by_cases hg : (isLeadDigit a && isDigitB b2 && isDigitB c) = true
    · by_cases hd : d = 32
      · subst hd
        simp [parse_first_line, take_response_code, hg, splitAtCRLF_append _ h4, hs]
      · simp [parse_first_line, take_response_code, hg, hd]
    · simp [parse_first_line, take_response_code, hg]

/-- C4: characterization of `parse_first_line`.  For every valid status
line — three digit bytes with the first in 1..5, one space, CRLF-free
text, a CRLF and nothing after it — parsing succeeds, returns exactly the
three code digit bytes, and leaves zero unconsumed bytes.  It fails on
every slice with no CRLF pair, on every slice whose first byte is not a
digit 1..5, on every slice whose next two bytes are not both digits, and
on every slice with any bytes after the (first) CRLF: trailing garbage is
a hard error, not a prefix match. -/
theorem claim4_parse_first_line :
    (∀ (c1 c2 c3 : Nat) (text : List Nat),
      isLeadDigit c1 = true → isDigitB c2 = true → isDigitB c3 = true →
      hasCRLF text = false →
      parse_first_line (c1 :: c2 :: c3 :: 32 :: (text ++ 13 :: 10 :: []))
        = some ([], [c1, c2, c3], text)) ∧
    (∀ b : List Nat, hasCRLF b = false → parse_first_line b = none) ∧
    (∀ (c : Nat) (rest : List Nat), isLeadDigit c = false →
      parse_first_line (c :: rest) = none) ∧
    (∀ (c1 c2 c3 : Nat) (rest : List Nat),
      isDigitB c2 = false ∨ isDigitB c3 = false →
      parse_first_line (c1 :: c2 :: c3 :: rest) = none) ∧
    (∀ (p s : List Nat), hasCRLF p = false → s ≠ [] →
      parse_first_line (p ++ 13 :: 10 :: s) = none) :=
  ⟨pfl_valid, pfl_no_crlf, pfl_bad_lead, pfl_bad_digits, pfl_trailing⟩

/-- Witness for C4 at concrete inputs: `"200 hello\r\n"` parses to code
`"200"` with empty remainder; `"200 hello"` (no CRLF), `"600 x\r\n"` (bad
lead digit), `"2ab x\r\n"` (bad digits) and `"200 hi\r\nX"` (trailing
garbage) all fail. -/
theorem claim4_parse_first_line_witness :
    parse_first_line (50 :: 48 :: 48 :: 32 :: (bytes "hello" ++ 13 :: 10 :: []))
      = some ([], [50, 48, 48], bytes "hello") ∧
    parse_first_line (bytes "200 hello") = none ∧
    parse_first_line (54 :: bytes "00 x\r\n") = none ∧
    parse_first_line (50 :: 97 :: 98 :: bytes " x\r\n") = none ∧
    parse_first_line (bytes "200 hi" ++ 13 :: 10 :: bytes "X") = none :=
  ⟨claim4_parse_first_line.1 50 48 48 (bytes "hello")
      (by decide) (by decide) (by decide) (by decide),
   claim4_parse_first_line.2.1 (bytes "200 hello") (by decide),
   claim4_parse_first_line.2.2.1 54 (bytes "00 x\r\n") (by decide),
   claim4_parse_first_line.2.2.2.1 50 97 98 (bytes " x\r\n") (by decide),
   claim4_parse_first_line.2.2.2.2 (bytes "200 hi") (bytes "X")
      (by decide) (by decide)⟩

theorem is_end_of_datablock_iff {l : List Nat} :
    is_end_of_datablock l = true ↔ l = [46] := by
  simp [is_end_of_datablock]

theorem rdb_loop_ne_outOfFuel : ∀ (fuel : Nat) (stream buffer : List Nat)
    (bds : List (Nat × Nat)), stream.length < fuel →
    rdb_loop fuel stream buffer bds buffer.length ≠ .outOfFuel := by
  intro fuel
  induction fuel with
  | zero => intro stream _ _ h; omega
  | succ fuel ih =>
    intro stream buffer bds h
    rcases hrun : read_until_nl stream with ⟨chunk, s'⟩
    simp only [rdb_loop, hrun]
    rw [List.drop_left]
    cases hp : parse_data_block_line chunk with
    | none => simp
    | some line =>
      simp only
      by_cases he : is_end_of_datablock line = true
      · simp [he]
      · simp only [he, Bool.false_eq_true, if_false]
        have hchunk : chunk = line ++ [13, 10] := parse_data_block_line_eq_some hp
        have hsplit : chunk ++ s' = stream := by
          have := read_until_nl_split stream
          rw [hrun] at this
          exact this
        have hlen : s'.length < fuel := by
          have : chunk.length + s'.length = stream.length := by
            rw [← List.length_append, hsplit]
          have hc : 0 < chunk.length := by simp [hchunk]
          omega
        have hB : buffer.length + chunk.length = (buffer ++ chunk).length :=
          (List.length_append buffer chunk).symm
        rw [hB]
        exact ih s' (buffer ++ chunk) _ hlen

theorem rdb_loop_ok_spec : ∀ (fuel : Nat) (stream buffer : List Nat)
    (bds : List (Nat × Nat)) (payload : List Nat) (bds' : List (Nat × Nat))
    (rest : List Nat),
    rdb_loop fuel stream buffer bds buffer.length = .ok payload bds' rest →
    ∃ newbds, bds' = bds ++ newbds ∧ newbds ≠ [] ∧
      contiguousFrom buffer.length newbds = true ∧
      endOf buffer.length newbds = payload.length ∧
      (∃ pre, payload = buffer ++ pre) ∧
      (∀ q ∈ newbds, ∃ l, parse_data_block_line (sliceOf payload q) = some l) ∧
      (∀ q ∈ newbds.dropLast, ∀ l,
        parse_data_block_line (sliceOf payload q) = some l →
        is_end_of_datablock l = false) ∧
      (∃ q, newbds.getLast? = some q ∧
        parse_data_block_line (sliceOf payload q) = some [46]) := by
  intro fuel
  induction fuel with
  | zero => intro stream buffer bds payload bds' rest h; exact absurd h (by simp [rdb_loop])
  | succ fuel ih =>
    intro stream buffer bds payload bds' rest h
    rcases hrun : read_until_nl stream with ⟨chunk, s'⟩
    rw [show rdb_loop (fuel + 1) stream buffer bds buffer.length
        = (match parse_data_block_line ((buffer ++ chunk).drop buffer.length) with
          | none => RdbOut.parseError
          | some line =>
            if is_end_of_datablock line then
              RdbOut.ok (buffer ++ chunk)
                (bds ++ [(buffer.length, buffer.length + chunk.length)]) s'
            else rdb_loop fuel s' (buffer ++ chunk)
              (bds ++ [(buffer.length, buffer.length + chunk.length)])
              (buffer.length + chunk.length)) by
        simp only [rdb_loop, hrun]] at h
    rw [List.drop_left] at h
    cases hp : parse_data_block_line chunk with
    | none => rw [hp] at h; exact absurd h (by simp)
    | some line =>
      rw [hp] at h
      dsimp only at h
      have hchunk : chunk = line ++ [13, 10] := parse_data_block_line_eq_some hp
      have hclen : 0 < chunk.length := by simp [hchunk]
      by_cases he : is_end_of_datablock line = true
      · rw [if_pos he] at h
        cases h
        refine ⟨[(buffer.length, buffer.length + chunk.length)], rfl, by simp, ?_, ?_, ⟨chunk, rfl⟩, ?_, ?_, ?_⟩
        · simp [contiguousFrom]
          omega
        · simp [endOf]
        · intro q hq
          simp only [List.mem_singleton] at hq
          subst hq
          refine ⟨line, ?_⟩
          simpa [sliceOf, List.drop_left, List.take_length] using hp
        · intro q hq
          simp at hq
        · refine ⟨(buffer.length, buffer.length + chunk.length), by simp, ?_⟩
          have hl : line = [46] := is_end_of_datablock_iff.mp he
          rw [← hl]
          simpa [sliceOf, List.drop_left, List.take_length] using hp
      · rw [if_neg he] at h
        rw [show buffer.length + chunk.length = (buffer ++ chunk).length from
          (List.length_append buffer chunk).symm] at h
        obtain ⟨newbds₂, hbds', hne₂, hcont₂, hend₂, ⟨pre₂, hpre₂⟩, hall₂, hmid₂, hlast₂⟩ :=
          ih s' (buffer ++ chunk) _ payload bds' rest h
        refine ⟨(buffer.length, (buffer ++ chunk).length) :: newbds₂, ?_, by simp, ?_, ?_, ?_, ?_, ?_, ?_⟩
        · rw [hbds']
          simp
        · simp only [contiguousFrom, beq_self_eq_true, Bool.true_and,
            Bool.and_eq_true, decide_eq_true_eq]
          refine ⟨?_, hcont₂⟩
          rw [List.length_append]
          omega
        · simpa [endOf] using hend₂
        · exact ⟨chunk ++ pre₂, by rw [hpre₂, List.append_assoc]⟩
        · intro q hq
          rcases List.mem_cons.mp hq with hq | hq
          · subst hq
            refine ⟨line, ?_⟩
            have hslice : sliceOf payload (buffer.length, (buffer ++ chunk).length) = chunk := by
              rw [hpre₂]
              simp only [sliceOf, List.append_assoc, List.drop_left, List.length_append]
              rw [show buffer.length + chunk.length - buffer.length = chunk.length by omega]
              exact List.take_left chunk pre₂
            rw [hslice]
            exact hp
          · exact hall₂ q hq
        · intro q hq l hl
          rcases newbds₂ with _ | ⟨nb, newtl⟩
          · exact absurd rfl hne₂
          · rw [List.dropLast_cons₂] at hq
            rcases List.mem_cons.mp hq with hq | hq
            · subst hq
              have hslice : sliceOf payload (buffer.length, (buffer ++ chunk).length) = chunk := by
                rw [hpre₂]
                simp only [sliceOf, List.append_assoc, List.drop_left, List.length_append]
                rw [show buffer.length + chunk.length - buffer.length = chunk.length by omega]
                exact List.take_left chunk pre₂
              rw [hslice, hp] at hl
              cases hl
              simpa using he
            · exact hmid₂ q hq l hl
        · obtain ⟨q, hq, hqp⟩ := hlast₂
          refine ⟨q, ?_, hqp⟩
          rcases newbds₂ with _ | ⟨nb, newtl⟩
          · exact absurd rfl hne₂
          · rw [List.getLast?_cons_cons]
            exact hq

theorem endOf_ge : ∀ (bds : List (Nat × Nat)) (h : Nat),
    contiguousFrom h bds = true → h ≤ endOf h bds := by
  intro bds
  induction bds with
  | nil => intro h _; exact Nat.le_refl h
  | cons q rest ih =>
    intro h hc
    simp only [contiguousFrom, Bool.and_eq_true, beq_iff_eq, decide_eq_true_eq] at hc
    obtain ⟨⟨hq1, hq2⟩, hrest⟩ := hc
    have := ih q.2 hrest
    simp only [endOf]
    omega

theorem join_slices (payload : List Nat) : ∀ (bds : List (Nat × Nat)) (h : Nat),
    contiguousFrom h bds = true →
    (bds.map (sliceOf payload)).flatten = (payload.drop h).take (endOf h bds - h) := by
  intro bds
  induction bds with
  | nil => intro h _; simp [endOf]
  | cons q rest ih =>
    intro h hc
    simp only [contiguousFrom, Bool.and_eq_true, beq_iff_eq, decide_eq_true_eq] at hc
    obtain ⟨⟨hq1, hq2⟩, hrest⟩ := hc
    have hle : q.2 ≤ endOf q.2 rest := endOf_ge rest q.2 hrest
    simp only [List.map_cons, List.flatten_cons, ih q.2 hrest, endOf]
    have hdd : payload.drop q.2 = (payload.drop h).drop (q.2 - h) := by
      rw [List.drop_drop]
      congr 1
      omega
    rw [hdd, sliceOf, hq1]
    rw [show endOf q.2 rest - h = (q.2 - h) + (endOf q.2 rest - q.2) by omega,
      List.take_add]

/-- C5: for every data-block section successfully read by
`read_data_blocks` (as the engine calls it: empty buffer, empty boundary
list, read head 0), the recorded line-boundary pairs are contiguous from
offset 0 — hence monotonically increasing, non-overlapping, and gap-free —
they end exactly at the payload length, each pair spans one terminated
physical line (its slice parses as a single CRLF-terminated line), and the
concatenation of the payload slices `[start, end)` in order reconstructs
the whole payload buffer. -/
theorem claim5_line_boundaries_partition
    (stream payload : List Nat) (bds : List (Nat × Nat)) (rest : List Nat)
    (h : read_data_blocks stream [] [] = .ok payload bds rest) :
    contiguousFrom 0 bds = true ∧
    endOf 0 bds = payload.length ∧
    (∀ q ∈ bds, ∃ l, parse_data_block_line (sliceOf payload q) = some l) ∧
    (bds.map (sliceOf payload)).flatten = payload := by
  obtain ⟨newbds, hb, hne, hcont, hend, _, hall, _, _⟩ :=
    rdb_loop_ok_spec (stream.length + 1) stream [] [] payload bds rest h
  rw [List.nil_append] at hb
  subst hb
  simp only [List.length_nil] at hcont hend
  refine ⟨hcont, hend, hall, ?_⟩
  rw [join_slices payload _ 0 hcont, hend]
  simp

/-- Witness for C5 at the concrete stream `"hello\r\n.\r\n"`, whose read
records boundaries `(0,7)` and `(7,10)` over the ten-byte payload. -/
theorem claim5_line_boundaries_partition_witness :
    contiguousFrom 0 [(0, 7), (7, 10)] = true ∧
    endOf 0 [(0, 7), (7, 10)] = (bytes "hello\r\n.\r\n").length ∧
    (∀ q ∈ [(0, 7), (7, 10)],
      ∃ l, parse_data_block_line (sliceOf (bytes "hello\r\n.\r\n") q) = some l) ∧
    ([(0, 7), (7, 10)].map (sliceOf (bytes "hello\r\n.\r\n"))).flatten
      = bytes "hello\r\n.\r\n" :=
  claim5_line_boundaries_partition (bytes "hello\r\n.\r\n")
    (bytes "hello\r\n.\r\n") [(0, 7), (7, 10)] [] (by decide)

/-- C10: termination and terminator discipline of `read_data_blocks`.
For every finite input stream the loop never runs out of fuel (every
iteration either stops or strictly consumes stream bytes, so any fuel
beyond the stream length suffices); a successful read always has the
literal terminator line `".\r\n"` (content `"."`) as its last recorded
line and no earlier recorded line is the terminator (the loop stops at the
first one); and the empty stream — end of input — fails the line grammar
with a parse error rather than succeeding or diverging. -/
theorem claim10_read_data_blocks_termination (stream : List Nat) :
    (∀ fuel, stream.length < fuel →
      rdb_loop fuel stream [] [] 0 ≠ .outOfFuel) ∧
    (∀ payload bds rest, read_data_blocks stream [] [] = .ok payload bds rest →
      (∃ q, bds.getLast? = some q ∧
        parse_data_block_line (sliceOf payload q) = some [46]) ∧
      (∀ q ∈ bds.dropLast, ∀ l,
        parse_data_block_line (sliceOf payload q) = some l →
        is_end_of_datablock l = false)) ∧
    read_data_blocks [] [] [] = .parseError := by
  refine ⟨?_, ?_, by decide⟩
  · intro fuel hf
    exact rdb_loop_ne_outOfFuel fuel stream [] [] hf
  · intro payload bds rest h
    obtain ⟨newbds, hb, _, _, _, _, _, hmid, hlast⟩ :=
      rdb_loop_ok_spec (stream.length + 1) stream [] [] payload bds rest h
    rw [List.nil_append] at hb
    subst hb
    exact ⟨hlast, hmid⟩

/-- Witness for C10 at the concrete stream `".\r\n"`: the loop does not
exhaust fuel 4, and the successful read has the terminator as its only
recorded line. -/
theorem claim10_read_data_blocks_termination_witness :
    rdb_loop 4 (bytes ".\r\n") [] [] 0 ≠ .outOfFuel ∧
    ((∃ q, [(0, 3)].getLast? = some q ∧
      parse_data_block_line (sliceOf (bytes ".\r\n") q) = some [46]) ∧
     (∀ q ∈ ([(0, 3)] : List (Nat × Nat)).dropLast, ∀ l,
        parse_data_block_line (sliceOf (bytes ".\r\n") q) = some l →
        is_end_of_datablock l = false)) :=
  ⟨(claim10_read_data_blocks_termination (bytes ".\r\n")).1 4 (by decide),
   (claim10_read_data_blocks_termination (bytes ".\r\n")).2.1
     (bytes ".\r\n") [(0, 3)] [] (by decide)⟩

/-- C8: per-response compression selection.  First, `use_decoder` fires
exactly on status lines that end with the literal suffix
`"[COMPRESS=GZIP]\r\n"`.  Second, with no compression mode configured the
inflate function is never consulted: the read is byte-identical for any
two inflate functions (pure passthrough).  Third, with the `XFeature` mode
configured, a `read_response` call behaves — response for response — like
a passthrough call in which the post-status-line stream has been routed
through the inflate function precisely when the status line carries the
marker: the decoder wrapping applies only to that one response's
data-block read, and the status line itself is always read from the raw
stream. -/
theorem claim8_compression_selection :
    (∀ fl : List Nat, Compression.use_decoder .xfeature fl = true ↔
      ∃ p, fl = p ++ compressMarker) ∧
    (∀ (inflate inflate' : List Nat → List Nat) (cfgF cfgD : Nat)
       (ov : Option Bool) (st : ConnState),
      read_response none inflate cfgF cfgD ov st
        = read_response none inflate' cfgF cfgD ov st) ∧
    (∀ (line s1 f b : List Nat) (inflate : List Nat → List Nat)
       (cfgF cfgD : Nat) (ov : Option Bool), 10 ∉ line →
      (read_response (some .xfeature) inflate cfgF cfgD ov
          ⟨line ++ 10 :: s1, f, b⟩).map (fun p => p.1)
        = (read_response none inflate cfgF cfgD ov
            ⟨line ++ 10 ::
              (if Compression.use_decoder .xfeature (line ++ [10])
               then inflate s1 else s1), f, b⟩).map (fun p => p.1)) := by
  refine ⟨?_, ?_, ?_⟩
  · intro fl
    constructor
    · intro h
      have := List.isSuffixOf_iff_suffix.mp h
      obtain ⟨t, ht⟩ := this
      exact ⟨t, ht.symm⟩
    · rintro ⟨p, rfl⟩
      exact List.isSuffixOf_iff_suffix.mpr ⟨p, rfl⟩
  · intro inflate inflate' cfgF cfgD ov st
    rfl
  · intro line s1 f b inflate cfgF cfgD ov hline
    have h1 : read_until_nl (line ++ 10 :: s1) = (line ++ [10], s1) :=
      read_until_nl_append s1 hline
    have h2 : read_until_nl (line ++ 10 ::
        (if Compression.use_decoder .xfeature (line ++ [10])
         then inflate s1 else s1))
        = (line ++ [10],
           if Compression.use_decoder .xfeature (line ++ [10])
           then inflate s1 else s1) :=
      read_until_nl_append _ hline
    simp only [read_response, h1, h2, List.take_zero, List.nil_append]
    cases hp : parse_first_line (line ++ [10]) with
    | none => rfl
    | some q =>
      rcases q with ⟨r, code, data⟩
      dsimp only
      by_cases hw : wantsDataBlocks ov
          (ResponseCode.fromNat (codeVal code)).is_multiline = true
      · rw [if_pos hw, if_pos hw]
      · rw [if_neg hw, if_neg hw]
        rfl

/-- Witness for C8 at a concrete marker-carrying status line. -/
theorem claim8_compression_selection_witness :
    (Compression.use_decoder .xfeature
      (bytes "224 overview [COMPRESS=GZIP]\r\n") = true ↔
        ∃ p, bytes "224 overview [COMPRESS=GZIP]\r\n" = p ++ compressMarker) ∧
    (read_response (some .xfeature) (fun _ => bytes "y\r\n.\r\n") 128 16384
        (some true)
        ⟨bytes "224 overview [COMPRESS=GZIP]\r" ++ 10 :: bytes "zz", [], []⟩).map
        (fun p => p.1)
      = (read_response none (fun _ => bytes "y\r\n.\r\n") 128 16384 (some true)
          ⟨bytes "224 overview [COMPRESS=GZIP]\r" ++ 10 ::
            (if Compression.use_decoder .xfeature
                (bytes "224 overview [COMPRESS=GZIP]\r" ++ [10])
             then (fun _ => bytes "y\r\n.\r\n") (bytes "zz") else bytes "zz"),
           [], []⟩).map (fun p => p.1) :=
  ⟨claim8_compression_selection.1 (bytes "224 overview [COMPRESS=GZIP]\r\n"),
   claim8_compression_selection.2.2
     (bytes "224 overview [COMPRESS=GZIP]\r") (bytes "zz") [] []
     (fun _ => bytes "y\r\n.\r\n") 128 16384 (some true) (by decide)⟩

theorem take_utf8_non_ascii_ascii {c : Nat} (r : List Nat) (h : c < 128) :
    take_utf8_non_ascii (c :: r) = none := by
  have hna : ¬ (128 ≤ c) := by omega
  rcases r with _ | ⟨r1, _ | ⟨r2, _ | ⟨r3, rr⟩⟩⟩ <;>
    simp [take_utf8_non_ascii, takeN, is_utf8_non_ascii, hna]

theorem take_p_char_a_char {c : Nat} (r : List Nat) (h : is_a_char c = true) :
    take_p_char (c :: r) = some ([c], r) := by
  have hc : 33 ≤ c ∧ c ≤ 126 := by simpa [is_a_char] using h
  have h127 : c ≤ 127 := by omega
  simp [take_p_char, take_a_char, take_ascii_byte, takeN, is_a_char_bytes,
    is_a_char, h127, hc.1, hc.2, Bool.and_eq_true, decide_eq_true_eq,
    show (1 : Nat) ≤ r.length + 1 by omega]

theorem take_p_char_low {c : Nat} (r : List Nat) (h : c < 33) :
    take_p_char (c :: r) = none := by
  have h1 : ¬ (33 ≤ c) := by omega
  have h127 : c ≤ 127 := by omega
  simp [take_p_char, take_a_char, take_ascii_byte, takeN, is_a_char_bytes,
    is_a_char, h1, h127, take_utf8_non_ascii_ascii r (by omega : c < 128),
    show (1 : Nat) ≤ r.length + 1 by omega]

theorem take_p_char_nil : take_p_char [] = none := rfl

theorem takeTokenLoop_exact : ∀ (l : List Nat) (fuel : Nat) (r : List Nat),
    (∀ c ∈ l, is_a_char c = true) → take_p_char r = none → l.length ≤ fuel →
    takeTokenLoop fuel (l ++ r) = (l.length, r) := by
  intro l
  induction l with
  | nil =>
    intro fuel r _ hr _
    cases fuel with
    | zero => rfl
    | succ fuel => simp [takeTokenLoop, hr]
  | cons c l' ih =>
    intro fuel r hl hr hf
    cases fuel with
    | zero => simp at hf
    | succ fuel =>
      have hc : is_a_char c = true := hl c (List.mem_cons_self c l')
      have hrest : ∀ x ∈ l', is_a_char x = true :=
        fun x hx => hl x (List.mem_cons_of_mem c hx)
      simp only [List.cons_append, takeTokenLoop,
        take_p_char_a_char (l' ++ r) hc]
      rw [ih fuel r hrest hr (by simpa using hf)]
      simp [Nat.add_comm]

theorem take_token_exact {l r : List Nat} (hne : l ≠ [])
    (hl : ∀ c ∈ l, is_a_char c = true) (hr : take_p_char r = none) :
    take_token (l ++ r) = some (l, r) := by
  have hloop : takeTokenLoop (l.length + r.length) (l ++ r) = (l.length, r) := by
    rw [← List.length_append]
    exact takeTokenLoop_exact l (l ++ r).length r hl hr (by simp)
  have hl0 : l.length ≠ 0 := by simpa using hne
  simp [take_token, hloop, hl0, List.take_left]

theorem span_exact {p : Nat → Bool} : ∀ (l r : List Nat),
    (∀ c ∈ l, p c = true) → (∀ c, r.head? = some c → p c = false) →
    span p (l ++ r) = (l, r) := by
  intro l
  induction l with
  | nil =>
    intro r _ hr
    cases r with
    | nil => rfl
    | cons c rest =>
      have := hr c rfl
      simp [span, this]
  | cons c l' ih =>
    intro r hl hr
    have hc : p c = true := hl c (List.mem_cons_self c l')
    simp only [List.cons_append, span, hc, if_true, List.append_eq]
    rw [ih r (fun x hx => hl x (List.mem_cons_of_mem c hx)) hr]

theorem space1P_exact {ws r : List Nat} (hne : ws ≠ [])
    (hws : ∀ c ∈ ws, isSpaceTab c = true)
    (hr : ∀ c, r.head? = some c → isSpaceTab c = false) :
    space1P (ws ++ r) = some (ws, r) := by
  simp [space1P, span_exact ws r hws hr, hne]

theorem not_spaceTab_of_a_char {c : Nat} (h : is_a_char c = true) :
    isSpaceTab c = false := by
  have hc : 33 ≤ c ∧ c ≤ 126 := by simpa [is_a_char] using h
  simp [isSpaceTab]
  omega

theorem contStep_fold {ws l2 r : List Nat} (hwsne : ws ≠ [])
    (hws : ∀ c ∈ ws, isSpaceTab c = true) (hl2ne : l2 ≠ [])
    (hl2 : ∀ c ∈ l2, is_a_char c = true) (hr : take_p_char r = none) :
    contStep (13 :: 10 :: (ws ++ (l2 ++ r))) = some r := by
  have hcrlf : crlfP (13 :: 10 :: (ws ++ (l2 ++ r)))
      = some (ws ++ (l2 ++ r)) := by simp [crlfP]
  have hhead : ∀ c, (l2 ++ r).head? = some c → isSpaceTab c = false := by
    intro c hc
    cases l2 with
    | nil => exact absurd rfl hl2ne
    | cons a l2' =>
      simp only [List.cons_append, List.head?_cons, Option.some.injEq] at hc
      subst hc
      exact not_spaceTab_of_a_char (hl2 _ (List.mem_cons_self _ _))
  simp [contStep, hcrlf, space1P_exact hwsne hws hhead,
    take_token_exact hl2ne hl2 hr]

theorem contStep_crlf_only : contStep [13, 10] = none := rfl

theorem foldCont_crlf_only : ∀ fuel, foldCont fuel [13, 10] = [13, 10] := by
  intro fuel
  cases fuel with
  | zero => rfl
  | succ fuel => simp [foldCont, contStep_crlf_only]

theorem take_header_content_folded {l1 ws l2 : List Nat}
    (hl1ne : l1 ≠ []) (hl1 : ∀ c ∈ l1, is_a_char c = true)
    (hwsne : ws ≠ []) (hws : ∀ c ∈ ws, isSpaceTab c = true)
    (hl2ne : l2 ≠ []) (hl2 : ∀ c ∈ l2, is_a_char c = true) :
    take_header_content (l1 ++ 13 :: 10 :: (ws ++ (l2 ++ [13, 10])))
      = some (l1 ++ 13 :: 10 :: (ws ++ l2), [13, 10]) := by
  set B := l1 ++ 13 :: 10 :: (ws ++ (l2 ++ [13, 10])) with hB
  have hspan : (span isSpaceTab B).2 = B := by
    rcases l1 with _ | ⟨c, l1'⟩
    · exact absurd rfl hl1ne
    · have hc : isSpaceTab c = false :=
        not_spaceTab_of_a_char (hl1 c (List.mem_cons_self c l1'))
      simp [hB, span, hc]
  have htok : take_token B = some (l1, 13 :: 10 :: (ws ++ (l2 ++ [13, 10]))) := by
    rw [hB]
    exact take_token_exact hl1ne hl1 (take_p_char_low _ (by norm_num))
  have hstep : contStep (13 :: 10 :: (ws ++ (l2 ++ [13, 10]))) = some [13, 10] :=
    contStep_fold hwsne hws hl2ne hl2 (take_p_char_low _ (by norm_num))
  have hBlen : B.length = (l1 ++ 13 :: 10 :: (ws ++ l2)).length + 2 := by
    simp [hB]
    omega
  have hfold : foldCont B.length (13 :: 10 :: (ws ++ (l2 ++ [13, 10]))) = [13, 10] := by
    rw [hBlen]
    simp only [foldCont, hstep]
    simp [contStep_crlf_only]
  have hBsplit : B = (l1 ++ 13 :: 10 :: (ws ++ l2)) ++ [13, 10] := by
    simp [hB]
  simp only [take_header_content, hspan, htok, hfold]
  rw [show B.length - [13, 10].length = (l1 ++ 13 :: 10 :: (ws ++ l2)).length by
    rw [hBlen]; rfl]
  rw [hBsplit, List.take_left]

/-- C3: header folding.  The claim states that for a two-line folded
header the decoded content equals the concatenation of both lines' token
content with the folding markers (interior CRLF and continuation
whitespace) removed.  The parser in fact returns the raw consumed byte
span: for the folded header `"A: xy\r\n z\r\n"` it succeeds with content
`"xy\r\n z"`, which retains the folding markers and differs from the
markers-removed concatenation `"xyz"` (and from any whitespace-normalized
variant such as `"xy z"`). -/
theorem claim3_folded_header_counterexample :
    take_header (bytes "A: xy\r\n z\r\n")
      = some ((bytes "A", bytes "xy\r\n z"), []) ∧
    bytes "xy\r\n z" ≠ bytes "xyz" ∧
    bytes "xy\r\n z" ≠ bytes "xy z" := by
  refine ⟨by decide, by decide, by decide⟩

/-- C3 (amended): for every two-line folded header
`name ++ ": " ++ l1 ++ CRLF ++ ws ++ l2 ++ CRLF` — `name` nonempty over
the header-name alphabet, `l1`/`l2` nonempty runs of printable ASCII, `ws`
nonempty continuation whitespace — the header parser succeeds, consumes
the whole input, and the decoded content is the raw span
`l1 ++ CRLF ++ ws ++ l2`: the logical value of both lines with the folding
markers (the interior CRLF and the continuation whitespace) *retained*,
not removed; only the terminating CRLF is excluded. -/
theorem claim3_folded_header_amended {name l1 ws l2 : List Nat}
    (hnne : name ≠ []) (hname : ∀ c ∈ name, is_a_notcolon c = true)
    (hl1ne : l1 ≠ []) (hl1 : ∀ c ∈ l1, is_a_char c = true)
    (hwsne : ws ≠ []) (hws : ∀ c ∈ ws, isSpaceTab c = true)
    (hl2ne : l2 ≠ []) (hl2 : ∀ c ∈ l2, is_a_char c = true) :
    take_header (name ++ 58 :: 32 :: (l1 ++ 13 :: 10 :: (ws ++ (l2 ++ [13, 10]))))
      = some ((name, l1 ++ 13 :: 10 :: (ws ++ l2)), []) := by
  have hspan : span is_a_notcolon
      (name ++ 58 :: 32 :: (l1 ++ 13 :: 10 :: (ws ++ (l2 ++ [13, 10]))))
      = (name, 58 :: 32 :: (l1 ++ 13 :: 10 :: (ws ++ (l2 ++ [13, 10])))) := by
    apply span_exact name _ hname
    intro c hc
    simp only [List.head?_cons, Option.some.injEq] at hc
    subst hc
    decide
  simp only [take_header, hspan]
  rw [if_neg hnne]
  rw [take_header_content_folded hl1ne hl1 hwsne hws hl2ne hl2]
  simp [crlfP]

/-- Witness for the amended C3 at the concrete folded header
`"A: xy\r\n z\r\n"`. -/
theorem claim3_folded_header_amended_witness :
    take_header ((bytes "A") ++ 58 :: 32 ::
        ((bytes "xy") ++ 13 :: 10 :: ((bytes " ") ++ ((bytes "z") ++ [13, 10]))))
      = some ((bytes "A", (bytes "xy") ++ 13 :: 10 :: ((bytes " ") ++ bytes "z")), []) :=
  claim3_folded_header_amended (by decide) (by decide) (by decide) (by decide)
    (by decide) (by decide) (by decide) (by decide)

/-- C2: the claim states that the article decoder, on status line
`220 47661 <id@x>` with a folded two-line header, a blank line, body line
`hello` and terminator `.`, yields a body whose consuming line iterator
produces exactly one line `hello` with the terminator line skipped.  The
decode succeeds, but `BinaryArticle`'s unterminated iterator maps *every*
re-based line boundary through `&body[start..end-2]` without skipping the
terminator, so it yields two items: `hello` and `.`. -/
theorem claim2_article_counterexample :
    ((read_response none id 128 16384 none
        ⟨bytes "220 47661 <id@x>\r\nX: a\r\n b\r\n\r\nhello\r\n.\r\n", [], []⟩).bind
      (fun p => binaryArticleTryFrom p.1)).map BinaryArticle.unterminatedList
      = some [bytes "hello", bytes "."] ∧
    [bytes "hello", bytes "."] ≠ [bytes "hello"] := ⟨by decide, by decide⟩

/-- C2 (amended): for the raw response with status line
`220 47661 <id@x>` followed by the two physical lines of one folded
header, a blank line, one body line `hello` and the terminator, the
Article decoder succeeds; it extracts article number 47661 and message id
`<id@x>` from the status line; the decoded article has exactly one header
entry; and its consuming body iterator yields the body line `hello`
followed by the CRLF-stripped terminator line `.` (which is *not*
skipped), while the terminated iterator yields the same two lines with
their CRLF intact. -/
theorem claim2_article_decode_amended :
    ((read_response none id 128 16384 none
        ⟨bytes "220 47661 <id@x>\r\nX: a\r\n b\r\n\r\nhello\r\n.\r\n", [], []⟩).bind
      (fun p => binaryArticleTryFrom p.1)).map
        (fun a => (headersLen a.headers, a.unterminatedList, a.linesList))
      = some (1, [bytes "hello", bytes "."],
              [bytes "hello\r\n", bytes ".\r\n"]) ∧
    (read_response none id 128 16384 none
        ⟨bytes "220 47661 <id@x>\r\nX: a\r\n b\r\n\r\nhello\r\n.\r\n", [], []⟩).map
      (fun p => article_first_line_fields p.1)
      = some (some (47661, bytes "<id@x>")) := ⟨by decide, by decide⟩

theorem unterminatedOf_contents : ∀ (cs : List (List Nat)),
    (∀ c ∈ cs, c ≠ [46]) →
    unterminatedOf (cs.map (fun c => c ++ [13, 10]) ++ [[46, 13, 10]]) = cs := by
  intro cs
  induction cs with
  | nil => intro _; simp [unterminatedOf]
  | cons c cs' ih =>
    intro h
    have hc : c ≠ [46] := h c (List.mem_cons_self c cs')
    have hne : (c ++ [13, 10] == [46, 13, 10]) = false := by
      rw [beq_eq_false_iff_ne]
      intro hcontra
      exact hc (by
        have : c ++ [13, 10] = [46] ++ [13, 10] := by simpa using hcontra
        exact List.append_cancel_right this)
    simp only [List.map_cons, List.cons_append, unterminatedOf, hne,
      Bool.false_eq_true, if_false, List.append_eq]
    rw [ih (fun x hx => h x (List.mem_cons_of_mem c hx))]
    congr 1
    have hlen : (c ++ [13, 10]).length - 2 = c.length := by
      simp
    rw [hlen]
    exact List.take_left c [13, 10]

/-- C7 (amended): for every `DataBlocks` value whose recorded lines are
CRLF-terminated content lines followed by the bare terminator line `".\r\n"`,
with no *earlier* recorded line being the terminator line itself, the
terminated-line iterator yields the terminator line as its last item, and
the unterminated iterator yields exactly the preceding lines with their
CRLF stripped — the terminator line is not yielded. -/
theorem claim7_unterminated_amended (db : DataBlocks) (cs : List (List Nat))
    (hlines : db.linesList = cs.map (fun c => c ++ [13, 10]) ++ [[46, 13, 10]])
    (hnot : ∀ c ∈ cs, c ≠ [46]) :
    db.linesList.getLast? = some [46, 13, 10] ∧
    db.unterminatedList = cs := by
  constructor
  · rw [hlines]
    exact List.getLast?_concat _
  · rw [DataBlocks.unterminatedList, hlines]
    exact unterminatedOf_contents cs hnot

/-- C7: the claim quantifies over every `DataBlocks` value whose recorded
lines merely *end* with the terminator line.  For the value whose two
recorded lines are both `".\r\n"` the lines iterator does end with the
terminator, yet the unterminated iterator stops at the *first* terminator
line and yields nothing — it does not yield the preceding line `"."`
stripped, contradicting "yields every preceding line with its CRLF
stripped". -/
theorem claim7_unterminated_counterexample :
    (DataBlocks.linesList ⟨bytes ".\r\n.\r\n", [(0, 3), (3, 6)]⟩).getLast?
      = some (bytes ".\r\n") ∧
    DataBlocks.unterminatedList ⟨bytes ".\r\n.\r\n", [(0, 3), (3, 6)]⟩ = [] ∧
    ([] : List (List Nat)) ≠ [bytes "."] := ⟨by decide, by decide, by decide⟩

/-- Witness for the amended C7 at a concrete two-line data block
`"ab\r\n" ++ ".\r\n"`. -/
theorem claim7_unterminated_amended_witness :
    (DataBlocks.linesList ⟨bytes "ab\r\n.\r\n", [(0, 4), (4, 7)]⟩).getLast?
      = some [46, 13, 10] ∧
    DataBlocks.unterminatedList ⟨bytes "ab\r\n.\r\n", [(0, 4), (4, 7)]⟩
      = [bytes "ab"] :=
  claim7_unterminated_amended ⟨bytes "ab\r\n.\r\n", [(0, 4), (4, 7)]⟩
    [bytes "ab"] (by decide) (by decide)

/-- C9: the Capabilities decoder fails unless the response code is the
capabilities kind; it fails when no data-block section is present; the
data block whose (terminator-stripped) lines are `VERSION 2` and `READER`
decodes to a map with exactly two entries, `VERSION` carrying the single
argument `"2"` and `READER` carrying no arguments; and duplicate labels
overwrite rather than accumulate: lines `VERSION 1` then `VERSION 2`
decode to a single entry carrying `"2"`. -/
theorem claim9_capabilities_decode :
    (∀ resp : RawResponse, resp.code ≠ ResponseCode.known .capabilities →
      capabilitiesTryFrom resp = none) ∧
    (∀ resp : RawResponse, resp.data_blocks = none →
      capabilitiesTryFrom resp = none) ∧
    ((read_response none id 128 16384 none
        ⟨bytes "101 Capability list:\r\nVERSION 2\r\nREADER\r\n.\r\n", [], []⟩).bind
      (fun p => capabilitiesTryFrom p.1)
      = some [(bytes "VERSION", ⟨bytes "VERSION", some [bytes "2"]⟩),
              (bytes "READER", ⟨bytes "READER", none⟩)]) ∧
    ((read_response none id 128 16384 none
        ⟨bytes "101 Capability list:\r\nVERSION 1\r\nVERSION 2\r\n.\r\n", [], []⟩).bind
      (fun p => capabilitiesTryFrom p.1)
      = some [(bytes "VERSION", ⟨bytes "VERSION", some [bytes "2"]⟩)]) := by
  refine ⟨?_, ?_, by decide, by decide⟩
  · intro resp h
    simp [capabilitiesTryFrom, h]
  · intro resp h
    by_cases hc : resp.code ≠ ResponseCode.known .capabilities
    · simp [capabilitiesTryFrom, hc]
    · simp [capabilitiesTryFrom, hc, h]

/-- Witness for C9: a response with an unknown code is rejected, and a
capabilities-coded response without a data-block section is rejected. -/
theorem claim9_capabilities_decode_witness :
    capabilitiesTryFrom ⟨ResponseCode.unknown 500, bytes "500 ?\r\n", none⟩
      = none ∧
    capabilitiesTryFrom
      ⟨ResponseCode.known .capabilities, bytes "101 caps\r\n", none⟩ = none :=
  ⟨claim9_capabilities_decode.1 _ (by decide),
   claim9_capabilities_decode.2.1 _ rfl⟩

end Brokaw
